import Mathlib

/-!
Verification development for the book-to-audio bot (`bot.py`).

Python strings are embedded as `List Char`; each helper mirrors one Python
string operation, and each top-level definition mirrors one function or
method of the source.  Character classes (`\s`, `\d`) are modelled over the
ASCII range, which covers every character the source's patterns and the
concrete inputs use; Python's `re` module would additionally accept other
Unicode whitespace and digit characters.
-/

namespace BookBot

/-- Python `\s` / `str.strip` whitespace class (ASCII part). -/
def isSpaceChar (c : Char) : Bool :=
  c = ' ' ∨ c = '\t' ∨ c = '\n' ∨ c = '\r' ∨ c = '\x0b' ∨ c = '\x0c'

/-- Python `\d` digit class (ASCII part). -/
def isDigitChar (c : Char) : Bool :=
  '0' ≤ c ∧ c ≤ '9'

/-- The `[ \t]` class used by `clean_text`'s run-on whitespace patterns. -/
def isBlankChar (c : Char) : Bool :=
  c = ' ' ∨ c = '\t'

/-- Lower-casing for `re.IGNORECASE` on the characters the source's
patterns use: ASCII `A`-`Z` and Cyrillic `А`-`Я` (U+0410-U+042F). -/
def lowerChar (c : Char) : Char :=
  if 'A' ≤ c ∧ c ≤ 'Z' then Char.ofNat (c.toNat + 32)
  else if c.toNat ≥ 0x410 ∧ c.toNat ≤ 0x42F then Char.ofNat (c.toNat + 32)
  else c

/-- Class `[IVXLCDM]` under `re.IGNORECASE`. -/
def isRomanCharCI (c : Char) : Bool :=
  lowerChar c ∈ ['i', 'v', 'x', 'l', 'c', 'd', 'm']

/-- Python `str.lstrip()`. -/
def lstrip (s : List Char) : List Char :=
  s.dropWhile isSpaceChar

/-- Python `str.rstrip()`. -/
def rstrip (s : List Char) : List Char :=
  (s.reverse.dropWhile isSpaceChar).reverse

/-- Python `str.strip()`. -/
def pyStrip (s : List Char) : List Char :=
  lstrip (rstrip s)

/-- Python `text.split('\n')`. -/
def splitLines : List Char → List (List Char)
  | [] => [[]]
  | '\n' :: rest => [] :: splitLines rest
  | c :: rest =>
    match splitLines rest with
    | [] => [[c]]
    | h :: t => (c :: h) :: t

/-- Python `'\n'.join(lines)`. -/
def joinLines : List (List Char) → List Char
  | [] => []
  | [l] => l
  | l :: l' :: rest => l ++ '\n' :: joinLines (l' :: rest)

/-- Python `text.split('. ')`: left-to-right, non-overlapping. -/
def splitDotSpace : List Char → List (List Char)
  | [] => [[]]
  | '.' :: ' ' :: rest => [] :: splitDotSpace rest
  | c :: rest =>
    match splitDotSpace rest with
    | [] => [[c]]
    | h :: t => (c :: h) :: t

/-- Python `text.replace('\n', ' ')`. -/
def replaceNlSpace (s : List Char) : List Char :=
  s.map (fun c => if c = '\n' then ' ' else c)

/-- Python `len(text.split())`: number of maximal non-whitespace runs. -/
def countWords (s : List Char) : Nat :=
  (s.foldl
    (fun (p : Bool × Nat) c =>
      if isSpaceChar c then (false, p.2)
      else if p.1 then (true, p.2) else (true, p.2 + 1))
    (false, 0)).2

/-- Tests whether the first character of `s` exists and satisfies `p`. -/
def headIs (p : Char → Bool) : List Char → Bool
  | [] => false
  | c :: _ => p c

/-- Case-sensitive literal prefix: `some rest` iff `s` starts with `lit`. -/
def stripLit : List Char → List Char → Option (List Char)
  | [], s => some s
  | _ :: _, [] => none
  | l :: ls, c :: cs => if c = l then stripLit ls cs else none

/-- Case-insensitive literal prefix (`lit` given in lower case), for
`re.IGNORECASE` patterns. -/
def stripLitCI : List Char → List Char → Option (List Char)
  | [], s => some s
  | _ :: _, [] => none
  | l :: ls, c :: cs => if lowerChar c = l then stripLitCI ls cs else none

/-!  ## `TextPreprocessor.clean_text`

Each `matchJunkN` decides `re.match(pattern, line)` for the N-th entry of
`cleanup_patterns`.  All the patterns' quantifiers sit between disjoint
character classes, so greedy matching never backtracks and each decider is
a straight scan; `$` is modelled as end-of-string (lines produced by
`text.split('\n')` never contain `'\n'`, so Python's before-trailing-newline
case for `$` cannot arise).
-/

/-- Pattern `r'^\s*\d+\s*$'` — a bare page number. -/
def matchJunk1 (s : List Char) : Bool :=
  let t := s.dropWhile isSpaceChar
  t.takeWhile isDigitChar ≠ [] ∧ (t.dropWhile isDigitChar).dropWhile isSpaceChar = []

/-- Pattern `r'Page\s+\d+'`. -/
def matchJunk2 (s : List Char) : Bool :=
  match stripLit "Page".data s with
  | none => false
  | some r => r.takeWhile isSpaceChar ≠ [] ∧ headIs isDigitChar (r.dropWhile isSpaceChar)

/-- Pattern `r'Страница\s+\d+'`. -/
def matchJunk3 (s : List Char) : Bool :=
  match stripLit "Страница".data s with
  | none => false
  | some r => r.takeWhile isSpaceChar ≠ [] ∧ headIs isDigitChar (r.dropWhile isSpaceChar)

/-- Pattern `r'\[\d+\]'`. -/
def matchJunk4 (s : List Char) : Bool :=
  match s with
  | '[' :: r => r.takeWhile isDigitChar ≠ [] ∧ headIs (· = ']') (r.dropWhile isDigitChar)
  | _ => false

/-- Pattern `r'\(\d+\)'`. -/
def matchJunk5 (s : List Char) : Bool :=
  match s with
  | '(' :: r => r.takeWhile isDigitChar ≠ [] ∧ headIs (· = ')') (r.dropWhile isDigitChar)
  | _ => false

/-- Class `[А-Яа-яA-Za-z]`: Cyrillic U+0410-U+044F or an ASCII letter. -/
def isLetterRuEn (c : Char) : Bool :=
  (0x410 ≤ c.toNat ∧ c.toNat ≤ 0x44F) ∨ ('A' ≤ c ∧ c ≤ 'Z') ∨ ('a' ≤ c ∧ c ≤ 'z')

/-- Pattern `r'^\d+\s+[А-Яа-яA-Za-z]'` — a footnote line. -/
def matchJunk6 (s : List Char) : Bool :=
  s.takeWhile isDigitChar ≠ [] ∧
    (let r := s.dropWhile isDigitChar
     r.takeWhile isSpaceChar ≠ [] ∧ headIs isLetterRuEn (r.dropWhile isSpaceChar))

/-- Pattern `r'ISBN\s*:?\s*[\d\-]+'`. -/
def matchJunk7 (s : List Char) : Bool :=
  match stripLit "ISBN".data s with
  | none => false
  | some r =>
    let r1 := r.dropWhile isSpaceChar
    let r2 := match r1 with | ':' :: t => t | _ => r1
    headIs (fun c => isDigitChar c ∨ c = '-') (r2.dropWhile isSpaceChar)

/-- Pattern `r'©\s*\d{4}'`. -/
def matchJunk8 (s : List Char) : Bool :=
  match s with
  | '©' :: r =>
    let r1 := r.dropWhile isSpaceChar
    (r1.take 4).length = 4 ∧ (r1.take 4).all isDigitChar
  | _ => false

/-- Pattern `r'Copyright\s*\d{4}'`. -/
def matchJunk9 (s : List Char) : Bool :=
  match stripLit "Copyright".data s with
  | none => false
  | some r =>
    let r1 := r.dropWhile isSpaceChar
    (r1.take 4).length = 4 ∧ (r1.take 4).all isDigitChar

/-- Pattern `r'^[А-ЯA-Z\s]{3,}$'` — an all-caps header line. -/
def matchJunk10 (s : List Char) : Bool :=
  3 ≤ s.length ∧
    s.all (fun c => (0x410 ≤ c.toNat ∧ c.toNat ≤ 0x42F) ∨ ('A' ≤ c ∧ c ≤ 'Z') ∨ isSpaceChar c)

/-- Pattern `r'^\s*\*\s*\*\s*\*\s*$'` — an asterisk separator. -/
def matchJunk11 (s : List Char) : Bool :=
  match (s.dropWhile isSpaceChar) with
  | '*' :: r1 =>
    match r1.dropWhile isSpaceChar with
    | '*' :: r2 =>
      match r2.dropWhile isSpaceChar with
      | '*' :: r3 => r3.dropWhile isSpaceChar = []
      | _ => false
    | _ => false
  | _ => false

/-- Pattern `r'Глава\s+\d+\.+\s*\d+'` — a table-of-contents entry. -/
def matchJunk12 (s : List Char) : Bool :=
  match stripLit "Глава".data s with
  | none => false
  | some r =>
    r.takeWhile isSpaceChar ≠ [] ∧
      (let r2 := r.dropWhile isSpaceChar
       r2.takeWhile isDigitChar ≠ [] ∧
         (let r3 := r2.dropWhile isDigitChar
          r3.takeWhile (· = '.') ≠ [] ∧
            headIs isDigitChar ((r3.dropWhile (· = '.')).dropWhile isSpaceChar)))

/-- Pattern `r'Chapter\s+\d+\.+\s*\d+'` — a table-of-contents entry. -/
def matchJunk13 (s : List Char) : Bool :=
  match stripLit "Chapter".data s with
  | none => false
  | some r =>
    r.takeWhile isSpaceChar ≠ [] ∧
      (let r2 := r.dropWhile isSpaceChar
       r2.takeWhile isDigitChar ≠ [] ∧
         (let r3 := r2.dropWhile isDigitChar
          r3.takeWhile (· = '.') ≠ [] ∧
            headIs isDigitChar ((r3.dropWhile (· = '.')).dropWhile isSpaceChar)))

/-- Pattern `r'\n\s*\n\s*\n'`: the pattern consumes only whitespace and ends on a
newline, so it matches at the start of `s` iff `s` starts with `'\n'` and
the maximal whitespace run after it contains two more newlines. -/
def matchJunk14 (s : List Char) : Bool :=
  match s with
  | '\n' :: t => 2 ≤ (t.takeWhile isSpaceChar).count '\n'
  | _ => false

/-- Pattern `r'[ \t]+'` (as used by `re.match`: an initial space or tab). -/
def matchJunk15 (s : List Char) : Bool :=
  headIs isBlankChar s

/-- Python `str.isdigit()` (ASCII part): non-empty and all digits. -/
def pyIsDigit (s : List Char) : Bool :=
  s ≠ [] ∧ s.all isDigitChar

/-- The junk test applied to each stripped line of `clean_text`: any
`cleanup_patterns` match, or all-digits, or shorter than 3 characters, or
`line.count('.') > len(line) * 0.3`.  The dot-ratio comparison is written
as the exact rational test `10 * count > 3 * len`; an integer count never
falls within one double-rounding error of `len * 0.3`, so this agrees
with Python's float comparison. -/
def isJunkLine (s : List Char) : Bool :=
  matchJunk1 s ∨ matchJunk2 s ∨ matchJunk3 s ∨ matchJunk4 s ∨ matchJunk5 s ∨
  matchJunk6 s ∨ matchJunk7 s ∨ matchJunk8 s ∨ matchJunk9 s ∨ matchJunk10 s ∨
  matchJunk11 s ∨ matchJunk12 s ∨ matchJunk13 s ∨ matchJunk14 s ∨ matchJunk15 s ∨
  pyIsDigit s ∨ s.length < 3 ∨ 3 * s.length < 10 * s.count '.'

/-- Python `re.sub(r'[ \t]+', ' ', ·)`, processed left to right: `prevBlank`
records whether the previous character belonged to a blank run already
replaced by a single space. -/
def collapseBlankGo : Bool → List Char → List Char
  | _, [] => []
  | prevBlank, c :: rest =>
    if isBlankChar c then
      if prevBlank then collapseBlankGo true rest
      else ' ' :: collapseBlankGo true rest
    else c :: collapseBlankGo false rest

/-- Python `re.sub(r'[ \t]+', ' ', s)`: every maximal run of spaces/tabs becomes
one space. -/
def collapseBlankRuns (s : List Char) : List Char :=
  collapseBlankGo false s

/-- Greedy match of `r'\n\s*\n\s*\n+'` at the start of `cs`, returning the
suffix after the matched text.  The two `\s*` are enumerated longest-first
(`findSome?` over candidate give-backs), exactly the backtracking order of
Python's greedy quantifiers; the final `\n+` takes the maximal newline
run. -/
def matchTripleNl (cs : List Char) : Option (List Char) :=
  match cs with
  | '\n' :: rest =>
    let w1 := (rest.takeWhile isSpaceChar).length
    (List.range (w1 + 1)).findSome? (fun i =>
      match rest.drop (w1 - i) with
      | '\n' :: r2 =>
        let w2 := (r2.takeWhile isSpaceChar).length
        (List.range (w2 + 1)).findSome? (fun i' =>
          let r3 := r2.drop (w2 - i')
          let k := (r3.takeWhile (fun c => c = '\n')).length
          if 1 ≤ k then some (r3.drop k) else none)
      | _ => none)
  | _ => none

/-- Python `re.sub(r'\n\s*\n\s*\n+', '\n\n', ·)`, scanning left to right:
replace each (greedy, non-overlapping) match by two newlines and continue
after it.  Each step consumes at least one character, so fuel equal to the
input length suffices; the fuel-out branch is unreachable. -/
def subTripleGo : Nat → List Char → List Char
  | 0, cs => cs
  | _ + 1, [] => []
  | fuel + 1, c :: rest =>
    match matchTripleNl (c :: rest) with
    | some r => '\n' :: '\n' :: subTripleGo fuel r
    | none => c :: subTripleGo fuel rest

/-- Python `re.sub(r'\n\s*\n\s*\n+', '\n\n', s)`. -/
def subTripleNewline (s : List Char) : List Char :=
  subTripleGo s.length s

/-- Embeds `TextPreprocessor.clean_text`.

```python
lines = text.split('\n')
for line in lines:
    line = line.strip()
    if not line: continue
    ... is_junk checks ...
    if not is_junk: cleaned_lines.append(line)
cleaned_text = '\n'.join(cleaned_lines)
cleaned_text = re.sub(r'\n\s*\n\s*\n+', '\n\n', cleaned_text)
cleaned_text = re.sub(r'[ \t]+', ' ', cleaned_text)
removed_percent = ((original_length - cleaned_length) / original_length) * 100
return cleaned_text.strip()
```

The statistics line divides by `len(text)`, so the call raises
`ZeroDivisionError` when `text` is empty; embedded as `none`. -/
def clean_text (text : List Char) : Option (List Char) :=
  let lines := splitLines text
  let cleanedLines := lines.filterMap (fun l =>
    let s := pyStrip l
    if s = [] then none else if isJunkLine s then none else some s)
  let cleaned := joinLines cleanedLines
  let c2 := collapseBlankRuns (subTripleNewline cleaned)
  if text.length = 0 then none else some (pyStrip c2)

/-!  ## `EnhancedBookToSpeechBot._split_text`

```python
def _split_text(self, text: str, max_length: int = 3000) -> list:
    sentences = text.replace('\n', ' ').split('. ')
    chunks = []
    current_chunk = ""
    for sentence in sentences:
        if len(current_chunk) + len(sentence) < max_length:
            current_chunk += sentence + ". "
        else:
            if current_chunk:
                chunks.append(current_chunk.strip())
            current_chunk = sentence + ". "
    if current_chunk:
        chunks.append(current_chunk.strip())
    return chunks
```
-/

/-- The loop of `_split_text`: `cur` is `current_chunk`, the returned list
is the remaining chunks appended by the loop (flushed ones first). -/
def splitTextGo (maxLength : Nat) : List (List Char) → List Char → List (List Char)
  | [], cur => if cur ≠ [] then [pyStrip cur] else []
  | s :: rest, cur =>
    if cur.length + s.length < maxLength then
      splitTextGo maxLength rest (cur ++ s ++ ['.', ' '])
    else
      (if cur ≠ [] then [pyStrip cur] else []) ++ splitTextGo maxLength rest (s ++ ['.', ' '])

/-- Embeds `EnhancedBookToSpeechBot._split_text`. -/
def split_text (text : List Char) (maxLength : Nat) : List (List Char) :=
  splitTextGo maxLength (splitDotSpace (replaceNlSpace text)) []

/-!  ## `EnhancedBookToSpeechBot._analyze_book_structure`

```python
chapter_patterns = [
    r'(?:Глава|ГЛАВА)\s*(\d+|[IVXLCDM]+)\.?\s*(.{0,100})',
    r'(?:Chapter|CHAPTER)\s*(\d+|[IVXLCDM]+)\.?\s*(.{0,100})',
    r'^(\d+)\.?\s*(.{5,100})$'
]
```
matched with `re.match(pattern, line, re.IGNORECASE)`; only `match.group(2)`
is used by the caller, so the matchers return group 2.
-/

/-- Greedy `re.match` of `(?:KW|KW)\s*(\d+|[IVXLCDM]+)\.?\s*(.{0,100})`
under `re.IGNORECASE` (`keyword` given in lower case), returning group 2.
After group 1 the rest of the pattern matches any suffix and the classes
surrounding each quantifier are disjoint, so greedy matching never
backtracks: `\d+` is preferred over `[IVXLCDM]+`, `\.?` prefers consuming,
and group 2 takes up to 100 characters (`.` cannot take `'\n'`). -/
def matchHeading (keyword : List Char) (line : List Char) : Option (List Char) :=
  match stripLitCI keyword line with
  | none => none
  | some r =>
    let r1 := r.dropWhile isSpaceChar
    let r2? :=
      if headIs isDigitChar r1 then some (r1.dropWhile isDigitChar)
      else if headIs isRomanCharCI r1 then some (r1.dropWhile isRomanCharCI)
      else none
    match r2? with
    | none => none
    | some r2 =>
      let r3 := match r2 with | '.' :: t => t | _ => r2
      some (((r3.dropWhile isSpaceChar).takeWhile (· ≠ '\n')).take 100)

/-- Greedy `re.match` of `r'^(\d+)\.?\s*(.{5,100})$'`, returning group 2.  Both
ends are anchored, so Python's greedy backtracking is enumerated
explicitly: group 1 tries digit prefixes longest first, `\.?` prefers
consuming, `\s*` tries longest first, and the leftover must be 5-100
characters of non-newline text reaching the end.  (`$` also matches before
one trailing `'\n'`, handled by dropping it: group 2 cannot contain
`'\n'`, so no other match could end at the true end; lines produced by
`text.split('\n')` are newline-free anyway.) -/
def matchNumbered (line : List Char) : Option (List Char) :=
  let cs := if line.getLast? = some '\n' then line.dropLast else line
  let d := (cs.takeWhile isDigitChar).length
  if d = 0 then none else
  (List.range d).findSome? (fun i =>
    let afterD := cs.drop (d - i)
    let dotOpts := match afterD with | '.' :: t => [t, afterD] | _ => [afterD]
    dotOpts.findSome? (fun afterDot =>
      let w := (afterDot.takeWhile isSpaceChar).length
      (List.range (w + 1)).findSome? (fun j =>
        let r := afterDot.drop (w - j)
        if 5 ≤ r.length ∧ r.length ≤ 100 ∧ r.all (· ≠ '\n') then some r else none)))

/-- The per-line pattern test of `_analyze_book_structure`: the three
patterns are tried in order, first match wins. -/
def matchChapterLine (line : List Char) : Option (List Char) :=
  match matchHeading "глава".data line with
  | some t => some t
  | none =>
    match matchHeading "chapter".data line with
    | some t => some t
    | none => matchNumbered line

/-- The `ChapterMood` enum of the source. -/
inductive ChapterMood where
  | peaceful | tense | action | romantic | mysterious | sad | happy | dramatic | horror | adventure
deriving DecidableEq, Repr

/-- The `Chapter` dataclass of the source. -/
structure Chapter where
  number : Nat
  title : List Char
  startPosition : Nat
  endPosition : Nat
  text : List Char
  mood : ChapterMood
  backgroundMusic : Option (List Char) := none
  estimatedDuration : Nat := 0
  characters : Option (List (List Char)) := none
deriving DecidableEq, Repr

/-- Embeds `EnhancedBookToSpeechBot._estimate_chapter_duration`:
`int((words / 150) * 60)`.  Python computes this through floats; the exact
value `words * 60 / 150` (truncated) is used here — no claim depends on
the duration value. -/
def estimate_chapter_duration (text : List Char) : Nat :=
  countWords text * 60 / 150

/-- Closing out the accumulated chapter (`# Сохраняем предыдущую главу`):
appended only when a chapter is open and its accumulated body is non-blank. -/
def closeChapter (cc : Option Chapter) (curText : List Char) (acc : List Chapter) :
    List Chapter :=
  match cc with
  | some c =>
    if pyStrip curText ≠ [] then
      acc ++ [{ c with text := pyStrip curText,
                       estimatedDuration := estimate_chapter_duration curText }]
    else acc
  | none => acc

/-- The line loop of `_analyze_book_structure`: `cc` is `current_chapter`,
`n` is `chapter_number`, `curText` is `current_text`, `acc` is `chapters`,
`i` is the `enumerate` index.  At the end of input the final accumulated
chapter is closed by the same rule. -/
def analyzeLoop : List (List Char) → Option Chapter → Nat → List Char → List Chapter →
    Nat → List Chapter
  | [], cc, _, curText, acc, _ => closeChapter cc curText acc
  | l :: rest, cc, n, curText, acc, i =>
    let line := pyStrip l
    match matchChapterLine line with
    | some title =>
      analyzeLoop rest
        (some { number := n + 1, title := pyStrip title, startPosition := i,
                endPosition := 0, text := [], mood := .peaceful })
        (n + 1) [] (closeChapter cc curText acc) (i + 1)
    | none => analyzeLoop rest cc n (curText ++ line ++ ['\n']) acc (i + 1)

/-- Embeds `EnhancedBookToSpeechBot._analyze_book_structure`: run the line loop;
if no chapter was produced, fall back to a single chapter holding the
entire text, titled by the filename. -/
def analyze_book_structure (text filename : List Char) : List Chapter :=
  let cs := analyzeLoop (splitLines text) none 0 [] [] 0
  if cs = [] then
    [{ number := 1, title := filename, startPosition := 0, endPosition := text.length,
       text := text, mood := .peaceful,
       estimatedDuration := estimate_chapter_duration text }]
  else cs

/-!  ## `EnhancedBookToSpeechBot._generate_chapter_audio`

```python
chunks = self._split_text(text, max_length=3000)
audio_files = []
for i, chunk in enumerate(chunks):
    chunk_file = os.path.join(self.temp_dir, f"{chapter_name}_chunk_{i}.mp3")
    communicate = edge_tts.Communicate(chunk, voice)
    await communicate.save(chunk_file)
    audio_files.append(chunk_file)
chapter_file = os.path.join(self.temp_dir, f"{chapter_name}.mp3")
await self._merge_audio_files(audio_files, chapter_file)
for file_path in audio_files: ... os.remove(file_path)
return chapter_file
```

The synthesis call is the external boundary, modelled as
`synth : List Char → Option α` (`some a` = the call writes audio `a` to the
chunk file; `none` = the call raises, e.g. edge-tts `NoAudioReceived`).
There is no `try`/`except` and no cleanup handler in the method: a raised
exception propagates to the caller, the chunk files already written stay
on disk, and neither the merge nor the removal loop runs.
-/

/-- Observable outcome of one `_generate_chapter_audio` run. -/
structure GenOutcome (α : Type) where
  /-- Texts handed to the synthesis call, in order (up to and including a
  failing chunk). -/
  attempted : List (List Char)
  /-- Indices of per-chunk files still on disk when the method exits. -/
  leftoverChunkFiles : List Nat
  /-- The merged chapter artifact, when one is produced. -/
  chapterFile : Option (List α)
  /-- Whether the run ended by a raised synthesis exception. -/
  failed : Bool
deriving DecidableEq, Repr

/-- The chunk loop of `_generate_chapter_audio`: `written` holds the chunk
files written so far as (index, audio) pairs. -/
def genChapterGo {α : Type} (synth : List Char → Option α) :
    List (List Char) → Nat → List (Nat × α) → GenOutcome α
  | [], _, written =>
    { attempted := [], leftoverChunkFiles := [],
      chapterFile := some (written.map Prod.snd), failed := false }
  | c :: rest, i, written =>
    match synth c with
    | some a =>
      let o := genChapterGo synth rest (i + 1) (written ++ [(i, a)])
      { o with attempted := c :: o.attempted }
    | none =>
      { attempted := [c], leftoverChunkFiles := written.map Prod.fst,
        chapterFile := none, failed := true }

/-- Embeds `EnhancedBookToSpeechBot._generate_chapter_audio` (effects model). -/
def generate_chapter_audio {α : Type} (synth : List Char → Option α) (text : List Char) :
    GenOutcome α :=
  genChapterGo synth (split_text text 3000) 0 []

/-- Modelled from the spec: `validate_for_synthesis` (spec §4.3) is absent
from `src/` — no function of `bot.py` validates chunk text.  Per the
spec's words: reject (`none`) text under a minimum meaningful length
(taken as 3, consistent with `""` and `"ab"` rejected and
`"This is fine"` accepted); truncate over a maximum length to a safety
cap; strip characters outside a safe set (word characters, whitespace,
common punctuation); collapse run-on whitespace; append terminal
punctuation if missing. -/
def validate_for_synthesis (text : List Char) : Option (List Char) :=
  if text.length < 3 then none
  else
    let t := (text.take 5000).filter
      (fun c => isLetterRuEn c ∨ isDigitChar c ∨ isSpaceChar c ∨
        c ∈ ['.', ',', '!', '?', ';', ':', '-', Char.ofNat 39, '"', '(', ')'])
    let t2 := collapseBlankGo false t
    if t2.getLast? = some '.' ∨ t2.getLast? = some '!' ∨ t2.getLast? = some '?' then some t2
    else some (t2 ++ ['.'])

/-!  ## `EnhancedBookToSpeechBot.play_chapter` and the session dictionary

`context.user_data` holds the keys written by the bot's handlers; the
chapter menu stores `chapters` as a list of
`{'number', 'title', 'file', 'duration'}` dictionaries.
-/

/-- One entry of `context.user_data['chapters']`. -/
structure ChapterInfo where
  number : Nat
  title : List Char
  file : List Char
  duration : Nat
deriving DecidableEq, Repr

/-- The per-caller `context.user_data` dictionary (the keys the source
reads or writes). -/
structure UserData where
  text : Option (List Char) := none
  filename : Option (List Char) := none
  bookHash : Option (List Char) := none
  fileSize : Option Nat := none
  selectedVoice : Option (List Char) := none
  chapters : Option (List ChapterInfo) := none
  currentBookHash : Option (List Char) := none
deriving DecidableEq, Repr

/-- The message `play_chapter` answers with. -/
inductive PlayReply where
  | chaptersMissing
  | chapterNotFound (n : Nat)
  | playing (n : Nat)
deriving DecidableEq, Repr

/-- Externally visible effects of one `play_chapter` call. -/
structure PlayEffects where
  reply : PlayReply
  sentAudio : Option ChapterInfo
  savedStats : Option (Nat × Nat)
deriving DecidableEq, Repr

/-- Embeds `EnhancedBookToSpeechBot.play_chapter`: look up the requested number
with the first-match loop; on a miss answer "Глава N не найдена" and
return without touching `user_data`, sending audio, or saving stats. -/
def play_chapter (ud : UserData) (chapterNum : Nat) : UserData × PlayEffects :=
  match ud.chapters with
  | none => (ud, { reply := .chaptersMissing, sentAudio := none, savedStats := none })
  | some chs =>
    match chs.find? (fun ch => ch.number == chapterNum) with
    | none => (ud, { reply := .chapterNotFound chapterNum, sentAudio := none, savedStats := none })
    | some ch =>
      (ud, { reply := .playing chapterNum, sentAudio := some ch,
             savedStats := some (chapterNum, ch.duration) })

/-!  ## Concrete inputs and statement-side predicates used by the theorems -/

/-- Input with 21 headings, each followed by a body line. -/
def headedText : List Char :=
  ("Chapter 1\nx\nChapter 2\nx\nChapter 3\nx\nChapter 4\nx\nChapter 5\nx\n" ++
   "Chapter 6\nx\nChapter 7\nx\nChapter 8\nx\nChapter 9\nx\nChapter 10\nx\n" ++
   "Chapter 11\nx\nChapter 12\nx\nChapter 13\nx\nChapter 14\nx\nChapter 15\nx\n" ++
   "Chapter 16\nx\nChapter 17\nx\nChapter 18\nx\nChapter 19\nx\nChapter 20\nx\n" ++
   "Chapter 21\nx").data

/-- Plain prose of 251 words (`"ab "` repeated) with no heading pattern. -/
def proseText : List Char :=
  (List.replicate 251 "ab ".data).flatten

/-- Chapter text of 3002 characters: 2999 `'a'`s, a sentence boundary, and
`"b"` — `_split_text(·, 3000)` gives two chunks. -/
def longChapterText : List Char :=
  List.replicate 2999 'a' ++ ". b".data

/-- A synthesizer that succeeds on the long first chunk and raises on the
short second one. -/
def lengthGatedSynth : List Char → Option Nat :=
  fun c => if 10 < c.length then some 0 else none

/-- Side condition for cleaned form: every newline is immediately followed
by a non-whitespace character (so the triple-newline pattern can match
nowhere). -/
def noWsAfterNl : List Char → Bool
  | [] => true
  | ['\n'] => false
  | '\n' :: c :: rest => !(isSpaceChar c) && noWsAfterNl (c :: rest)
  | _ :: rest => noWsAfterNl rest


/-!  ## Lemmas about `pyStrip` and the chunks of `_split_text` -/

theorem dropWhile_append_last {p : Char → Bool} {d : Char} (hd : p d = false) :
    ∀ xs : List Char,
      List.dropWhile p (xs ++ [d]) ≠ [] ∧ (List.dropWhile p (xs ++ [d])).getLast? = some d := by
  intro xs
  induction xs with
  | nil => simp [List.dropWhile, hd]
  | cons c xs ih =>
    rw [List.cons_append]
    cases hpc : p c with
    | true => simpa [List.dropWhile, hpc] using ih
    | false =>
      have hall : List.dropWhile p (c :: (xs ++ [d])) = c :: (xs ++ [d]) := by
        simp [List.dropWhile, hpc]
      refine ⟨by simp [hall], ?_⟩
      rw [hall, ← List.cons_append]
      exact List.getLast?_concat _

theorem length_dropWhile_le' (p : Char → Bool) (xs : List Char) :
    (List.dropWhile p xs).length ≤ xs.length := by
  induction xs with
  | nil => simp
  | cons c xs ih =>
    by_cases hc : p c
    · simp only [List.dropWhile_cons, hc, if_true]
      exact le_trans ih (by simp)
    · simp [List.dropWhile_cons, hc]

/-- Applying `rstrip` to a chunk buffer: the trailing `". "` always loses exactly
the final space. -/
theorem rstrip_append_dot_space (xs : List Char) :
    rstrip (xs ++ ['.', ' ']) = xs ++ ['.'] := by
  have h1 : isSpaceChar ' ' = true := by decide
  have h2 : isSpaceChar '.' = false := by decide
  simp [rstrip, List.reverse_append, List.dropWhile_cons, h1, h2]

theorem pyStrip_dot_space_ends (xs : List Char) :
    pyStrip (xs ++ ['.', ' ']) ≠ [] ∧ (pyStrip (xs ++ ['.', ' '])).getLast? = some '.' := by
  rw [pyStrip, rstrip_append_dot_space]
  exact dropWhile_append_last (by decide) xs

theorem pyStrip_dot_space_length (xs : List Char) :
    (pyStrip (xs ++ ['.', ' '])).length ≤ xs.length + 1 := by
  rw [pyStrip, rstrip_append_dot_space, lstrip]
  have := length_dropWhile_le' isSpaceChar (xs ++ ['.'])
  simpa using this

/-- Every chunk the loop of `_split_text` emits is the strip of a buffer
ending in `". "`. -/
theorem splitTextGo_chunk_shape (maxL : Nat) :
    ∀ (L : List (List Char)) (cur : List Char),
      (cur = [] ∨ ∃ xs, cur = xs ++ ['.', ' ']) →
      ∀ c ∈ splitTextGo maxL L cur, ∃ xs, c = pyStrip (xs ++ ['.', ' ']) := by
  intro L
  induction L with
  | nil =>
    intro cur hcur c hc
    rcases hcur with h | ⟨xs, rfl⟩
    · subst h; simp [splitTextGo] at hc
    · simp only [splitTextGo] at hc
      rw [if_pos (by simp)] at hc
      simp at hc
      exact ⟨xs, hc⟩
  | cons s rest ih =>
    intro cur hcur c hc
    simp only [splitTextGo] at hc
    split at hc
    · exact ih (cur ++ s ++ ['.', ' ']) (Or.inr ⟨cur ++ s, by simp⟩) c hc
    · rcases List.mem_append.mp hc with hmem | hmem
      · rcases hcur with h | ⟨xs, rfl⟩
        · subst h; simp at hmem
        · rw [if_pos (by simp)] at hmem
          simp at hmem
          exact ⟨xs, hmem⟩
      · exact ih (s ++ ['.', ' ']) (Or.inr ⟨s, rfl⟩) c hmem

theorem splitTextGo_ne_nil (maxL : Nat) :
    ∀ (L : List (List Char)) (cur : List Char), L ≠ [] ∨ cur ≠ [] →
      splitTextGo maxL L cur ≠ [] := by
  intro L
  induction L with
  | nil =>
    intro cur h
    rcases h with h | h
    · exact absurd rfl h
    · simp [splitTextGo, h]
  | cons s rest ih =>
    intro cur _
    simp only [splitTextGo]
    split
    · exact ih _ (Or.inr (by simp))
    · exact fun hcontra => (ih (s ++ ['.', ' ']) (Or.inr (by simp)))
        (by simpa using (List.append_eq_nil.mp hcontra).2)

theorem splitDotSpace_ne_nil (s : List Char) : splitDotSpace s ≠ [] := by
  rw [splitDotSpace.eq_def]
  split
  · simp
  · simp
  · split <;> simp

/-- C10: for every input (including the empty string) `_split_text`
returns a non-empty list; every chunk is non-empty and ends in `'.'` (the
loop re-appends `". "` to each sentence unit and strips the final space);
on the empty input the result is the single chunk `"."`. -/
theorem split_text_nonempty_dot_terminated (text : List Char) (maxLength : Nat) :
    split_text text maxLength ≠ [] ∧
    (∀ c ∈ split_text text maxLength, c ≠ [] ∧ c.getLast? = some '.') ∧
    split_text [] 3000 = [['.']] := by
  refine ⟨?_, ?_, by decide⟩
  · exact splitTextGo_ne_nil maxLength _ [] (Or.inl (splitDotSpace_ne_nil _))
  · intro c hc
    obtain ⟨xs, rfl⟩ :=
      splitTextGo_chunk_shape maxLength (splitDotSpace (replaceNlSpace text)) [] (Or.inl rfl) c hc
    exact pyStrip_dot_space_ends xs

theorem split_text_nonempty_dot_terminated_witness :
    ('a' :: '.' :: [] ≠ []) ∧ ('a' :: '.' :: [] : List Char).getLast? = some '.' :=
  (split_text_nonempty_dot_terminated "a".data 3000).2.1 ['a', '.'] (by decide)

/-- Invariant proof for the chunk bound: the running buffer is empty, a
freshly started single-unit buffer, or already strips to within the
bound. -/
theorem splitTextGo_bound (maxL : Nat) (P : List Char → Prop) :
    ∀ (L : List (List Char)) (cur : List Char),
      (∀ s ∈ L, P s) →
      (cur = [] ∨ (∃ u, P u ∧ cur = u ++ ['.', ' ']) ∨ (pyStrip cur).length ≤ maxL) →
      ∀ c ∈ splitTextGo maxL L cur,
        c.length ≤ maxL ∨ ∃ u, P u ∧ c = pyStrip (u ++ ['.', ' ']) ∧ maxL ≤ u.length := by
  intro L
  induction L with
  | nil =>
    intro cur _ hcur c hc
    simp only [splitTextGo] at hc
    rcases hcur with h | ⟨u, hu, rfl⟩ | h
    · subst h; simp at hc
    · rw [if_pos (by simp)] at hc
      simp at hc
      subst hc
      by_cases hlen : (pyStrip (u ++ ['.', ' '])).length ≤ maxL
      · exact Or.inl hlen
      · refine Or.inr ⟨u, hu, rfl, ?_⟩
        have := pyStrip_dot_space_length u
        omega
    · by_cases hne : cur = []
      · subst hne; simp at hc
      · rw [if_pos hne] at hc
        simp at hc
        subst hc
        exact Or.inl h
  | cons s rest ih =>
    intro cur hL hcur c hc
    simp only [splitTextGo] at hc
    split at hc
    · refine ih (cur ++ s ++ ['.', ' ']) (fun t ht => hL t (List.mem_cons_of_mem _ ht))
        (Or.inr (Or.inr ?_)) c hc
      next hlt =>
      have h1 : cur ++ s ++ ['.', ' '] = (cur ++ s) ++ ['.', ' '] := by simp
      rw [h1]
      have := pyStrip_dot_space_length (cur ++ s)
      have h2 : (cur ++ s).length = cur.length + s.length := by simp
      omega
    · rcases List.mem_append.mp hc with hmem | hmem
      · rcases hcur with h | ⟨u, hu, rfl⟩ | h
        · subst h; simp at hmem
        · rw [if_pos (by simp)] at hmem
          simp at hmem
          subst hmem
          by_cases hlen : (pyStrip (u ++ ['.', ' '])).length ≤ maxL
          · exact Or.inl hlen
          · refine Or.inr ⟨u, hu, rfl, ?_⟩
            have := pyStrip_dot_space_length u
            omega
        · by_cases hne : cur = []
          · subst hne; simp at hmem
          · rw [if_pos hne] at hmem
            simp at hmem
            subst hmem
            exact Or.inl h
      · exact ih (s ++ ['.', ' ']) (fun t ht => hL t (List.mem_cons_of_mem _ ht))
          (Or.inr (Or.inl ⟨s, hL s (List.mem_cons_self _ _), rfl⟩)) c hmem

/-- C5 (amended): every chunk of `_split_text` has length at most
`max_chars`, except singleton chunks built from one sentence unit `u` with
`max_chars ≤ len(u)` — the unit is re-emitted as `strip(u + ". ")`, which
can exceed `max_chars` (by one) even when `len(u)` equals `max_chars`. -/
theorem split_text_chunk_bound (text : List Char) (maxLength : Nat) :
    ∀ c ∈ split_text text maxLength,
      c.length ≤ maxLength ∨
        ∃ u, u ∈ splitDotSpace (replaceNlSpace text) ∧
          c = pyStrip (u ++ ['.', ' ']) ∧ maxLength ≤ u.length := by
  intro c hc
  exact splitTextGo_bound maxLength (· ∈ splitDotSpace (replaceNlSpace text))
    (splitDotSpace (replaceNlSpace text)) [] (fun _ h => h) (Or.inl rfl) c hc

theorem split_text_chunk_bound_witness :
    ('a' :: '.' :: [] : List Char).length ≤ 3000 ∨
      ∃ u, u ∈ splitDotSpace (replaceNlSpace "a".data) ∧
        ('a' :: '.' :: [] : List Char) = pyStrip (u ++ ['.', ' ']) ∧ 3000 ≤ u.length :=
  split_text_chunk_bound "a".data 3000 ['a', '.'] (by decide)

/-- C5 (counterexample): with `max_chars = 5` and input `"abcde"` — a
single sentence unit of length exactly 5, so no unit's length exceeds
`max_chars` — the returned chunk `"abcde."` has length 6 > 5.  This
refutes the claim that every chunk is within the bound except singletons
from a unit whose own length exceeds `max_chars`. -/
theorem split_text_chunk_exceeds_bound_without_oversized_unit :
    split_text "abcde".data 5 = ["abcde.".data] ∧
    5 < ("abcde.".data : List Char).length ∧
    ∀ u ∈ splitDotSpace (replaceNlSpace "abcde".data), ¬ 5 < u.length := by
  decide

/-!  ## Lemmas about `_analyze_book_structure` -/

set_option maxRecDepth 16000

/-- C1 (amended): segmentation always returns at least one chapter — in
particular for non-empty input — because the fallback branch installs a
single whole-text chapter whenever the heuristic loop produced none. -/
theorem analyze_book_structure_at_least_one_chapter (text filename : List Char) :
    1 ≤ (analyze_book_structure text filename).length := by
  simp only [analyze_book_structure]
  split
  · simp
  · next h => exact List.length_pos.mpr h

/-- C1 (counterexample): `_analyze_book_structure` has no 20-chapter cap —
a non-empty input with 21 headings yields 21 chapters. -/
theorem analyze_book_structure_exceeds_twenty_chapters :
    headedText ≠ [] ∧ 20 < (analyze_book_structure headedText "book.txt".data).length := by
  decide

/-- When no line matches a heading pattern, the heuristic loop produces
no chapter at all: `current_chapter` stays `None` and `chapters` stays
empty. -/
theorem analyzeLoop_no_match :
    ∀ (lines : List (List Char)) (curText : List Char) (i : Nat),
      (∀ l ∈ lines, matchChapterLine (pyStrip l) = none) →
      analyzeLoop lines none 0 curText [] i = [] := by
  intro lines
  induction lines with
  | nil => intro curText i _; rfl
  | cons l rest ih =>
    intro curText i h
    have hl := h l (List.mem_cons_self _ _)
    simp only [analyzeLoop, hl]
    exact ih _ _ (fun l' hl' => h l' (List.mem_cons_of_mem _ hl'))

/-- C2 (amended): when the heading heuristics match no line, segmentation
returns a single chapter numbered 1, titled by the filename, containing
the entire text — there is no word-count fallback split, so heading-free
input yields exactly one chapter regardless of its word count. -/
theorem analyze_book_structure_no_heading_fallback (text filename : List Char)
    (h : ∀ l ∈ splitLines text, matchChapterLine (pyStrip l) = none) :
    analyze_book_structure text filename =
      [{ number := 1, title := filename, startPosition := 0, endPosition := text.length,
         text := text, mood := .peaceful,
         estimatedDuration := estimate_chapter_duration text }] := by
  simp only [analyze_book_structure]
  rw [analyzeLoop_no_match (splitLines text) [] 0 h]
  rfl

theorem analyze_book_structure_no_heading_fallback_witness :
    analyze_book_structure "hello world".data "f".data =
      [{ number := 1, title := "f".data, startPosition := 0,
         endPosition := ("hello world".data : List Char).length,
         text := "hello world".data, mood := .peaceful,
         estimatedDuration := estimate_chapter_duration "hello world".data }] :=
  analyze_book_structure_no_heading_fallback "hello world".data "f".data (by decide)

/-- C2 (counterexample): an input of 251 words of plain prose with no
recognizable heading yields exactly one chapter, refuting the claimed
word-count fallback into roughly five parts (≥ 2 chapters for inputs over
about 250 words). -/
theorem analyze_book_structure_wordy_prose_single_chapter :
    250 < countWords proseText ∧
    (∀ l ∈ splitLines proseText, matchChapterLine (pyStrip l) = none) ∧
    (analyze_book_structure proseText "book.txt".data).length = 1 := by
  decide

/-- Closing a chapter with `closeChapter` preserves the chapter-list invariants; every chapter it
emits carries a number at most `n` (the running counter). -/
theorem closeChapter_invariant (cc : Option Chapter) (curText : List Char)
    (acc : List Chapter) (n : Nat)
    (h1 : List.Pairwise (fun a b => a.number < b.number) acc)
    (h2 : ∀ ch ∈ acc, 1 ≤ ch.number ∧ ch.text ≠ [])
    (h3 : ∀ c, cc = some c → c.number = n ∧ 1 ≤ c.number ∧ ∀ ch ∈ acc, ch.number < c.number)
    (h4 : cc = none → acc = []) :
    List.Pairwise (fun a b => a.number < b.number) (closeChapter cc curText acc) ∧
    (∀ ch ∈ closeChapter cc curText acc, 1 ≤ ch.number ∧ ch.text ≠ []) ∧
    (∀ ch ∈ closeChapter cc curText acc, ch.number ≤ n) := by
  cases cc with
  | none =>
    have hacc := h4 rfl
    subst hacc
    simp [closeChapter]
  | some c =>
    obtain ⟨hcn, hc1, hlt⟩ := h3 c rfl
    simp only [closeChapter]
    split
    · next hne =>
      refine ⟨?_, ?_, ?_⟩
      · rw [List.pairwise_append]
        refine ⟨h1, by simp, ?_⟩
        intro a ha b hb
        simp at hb
        subst hb
        exact hlt a ha
      · intro ch hch
        rcases List.mem_append.mp hch with hm | hm
        · exact h2 ch hm
        · simp at hm
          subst hm
          exact ⟨by simpa [hcn] using hc1, hne⟩
      · intro ch hch
        rcases List.mem_append.mp hch with hm | hm
        · exact le_of_lt (lt_of_lt_of_le (hlt ch hm) (le_of_eq hcn))
        · simp at hm
          subst hm
          simp [hcn]
    · exact ⟨h1, h2, fun ch hch => le_of_lt (lt_of_lt_of_le (hlt ch hch) (le_of_eq hcn))⟩

/-- The loop of `_analyze_book_structure` keeps chapter numbers strictly
increasing (with possible gaps) and chapter texts non-empty. -/
theorem analyzeLoop_invariant :
    ∀ (lines : List (List Char)) (cc : Option Chapter) (n : Nat) (curText : List Char)
      (acc : List Chapter) (i : Nat),
      List.Pairwise (fun a b => a.number < b.number) acc →
      (∀ ch ∈ acc, 1 ≤ ch.number ∧ ch.text ≠ []) →
      (∀ c, cc = some c → c.number = n ∧ 1 ≤ c.number ∧ ∀ ch ∈ acc, ch.number < c.number) →
      (cc = none → acc = []) →
      List.Pairwise (fun a b => a.number < b.number) (analyzeLoop lines cc n curText acc i) ∧
        ∀ ch ∈ analyzeLoop lines cc n curText acc i, 1 ≤ ch.number ∧ ch.text ≠ [] := by
  intro lines
  induction lines with
  | nil =>
    intro cc n curText acc i h1 h2 h3 h4
    have := closeChapter_invariant cc curText acc n h1 h2 h3 h4
    exact ⟨this.1, this.2.1⟩
  | cons l rest ih =>
    intro cc n curText acc i h1 h2 h3 h4
    simp only [analyzeLoop]
    cases hm : matchChapterLine (pyStrip l) with
    | some title =>
      obtain ⟨hp, hn, hb⟩ := closeChapter_invariant cc curText acc n h1 h2 h3 h4
      exact ih (some _) (n + 1) [] (closeChapter cc curText acc) (i + 1) hp hn
        (by
          intro c hc
          injection hc with hc
          subst hc
          exact ⟨rfl, by simp, fun ch hch => Nat.lt_succ_of_le (hb ch hch)⟩)
        (by intro h; cases h)
    | none =>
      exact ih cc n (curText ++ pyStrip l ++ ['\n']) acc (i + 1) h1 h2 h3 h4

/-- C8 (amended): chapter numbers are 1-based and strictly increasing in
sequence order, but may skip values (the counter advances on every heading
match while chapters with blank bodies are dropped), so the i-th returned
chapter need not carry number i; every returned chapter's text is
non-empty provided the input text is non-empty. -/
theorem analyze_book_structure_number_invariants (text filename : List Char) :
    List.Pairwise (fun a b => a.number < b.number) (analyze_book_structure text filename) ∧
    (∀ ch ∈ analyze_book_structure text filename, 1 ≤ ch.number) ∧
    (text ≠ [] → ∀ ch ∈ analyze_book_structure text filename, ch.text ≠ []) := by
  have h := analyzeLoop_invariant (splitLines text) none 0 [] [] 0 (by simp) (by simp)
    (by simp) (fun _ => rfl)
  simp only [analyze_book_structure]
  split
  · refine ⟨by simp, by simp, ?_⟩
    intro hne ch hch
    simp at hch
    subst hch
    simpa using hne
  · exact ⟨h.1, fun ch hch => (h.2 ch hch).1, fun _ ch hch => (h.2 ch hch).2⟩

theorem analyze_book_structure_number_invariants_witness :
    ({ number := 1, title := "f".data, startPosition := 0, endPosition := 2,
       text := "hi".data, mood := .peaceful, estimatedDuration := 0 } : Chapter).text ≠ [] :=
  (analyze_book_structure_number_invariants "hi".data "f".data).2.2 (by decide)
    _ (by decide)

/-- C8 (counterexample): on `"Chapter 1\nChapter 2\nSome body text"` the
first heading's chapter is dropped (blank body) while the counter still
advances, so the single returned chapter — the 1st — carries number 2,
not 1; and on the empty input the fallback chapter's text is empty. -/
theorem analyze_book_structure_number_skips :
    (analyze_book_structure "Chapter 1\nChapter 2\nSome body text".data "f".data).map
        Chapter.number = [2] ∧
    (analyze_book_structure [] "f".data).map Chapter.text = [[]] := by
  decide

/-!  ## C4: `clean_text` on the empty input -/

/-- C4: `clean_text("")` does not return the empty string — the statistics
line `removed_percent = ((original_length - cleaned_length) /
original_length) * 100` divides by `len(text)`, raising
`ZeroDivisionError` on empty input (embedded as `none`), contradicting
the claimed "no error conditions; empty input yields empty output". -/
theorem clean_text_empty_input_fails : clean_text [] = none := by
  decide

/-!  ## C9: `play_chapter` on a missing chapter number -/

/-- C9: selecting a chapter number that is not in the loaded chapter list
is a no-op: the session dictionary is returned unchanged, the reply is the
"not found" message, no audio is sent and no statistics are saved. -/
theorem play_chapter_not_found_noop (ud : UserData) (n : Nat) (chs : List ChapterInfo)
    (hc : ud.chapters = some chs) (hn : ∀ ch ∈ chs, ch.number ≠ n) :
    play_chapter ud n =
      (ud, { reply := .chapterNotFound n, sentAudio := none, savedStats := none }) := by
  simp only [play_chapter, hc]
  have hfind : chs.find? (fun ch => ch.number == n) = none := by
    rw [List.find?_eq_none]
    intro ch hch
    simpa using hn ch hch
  rw [hfind]

theorem play_chapter_not_found_noop_witness :
    play_chapter { chapters := some [{ number := 1, title := [], file := [], duration := 60 }] } 5 =
      ({ chapters := some [{ number := 1, title := [], file := [], duration := 60 }] },
       { reply := .chapterNotFound 5, sentAudio := none, savedStats := none }) :=
  play_chapter_not_found_noop _ 5 _ rfl (by decide)

/-!  ## C6: no validation gate before synthesis -/

/-- When every synthesis call succeeds, the loop hands every chunk to
synthesis. -/
theorem genChapterGo_attempted {α : Type} (synth : List Char → Option α)
    (h : ∀ c, (synth c).isSome = true) :
    ∀ (L : List (List Char)) (i : Nat) (written : List (Nat × α)),
      (genChapterGo synth L i written).attempted = L := by
  intro L
  induction L with
  | nil => intro i written; rfl
  | cons c rest ih =>
    intro i written
    simp only [genChapterGo]
    cases hs : synth c with
    | some a => simpa using ih (i + 1) (written ++ [(i, a)])
    | none => exact absurd (h c) (by simp [hs])

/-- C6 (amended): the spec's example behaviours hold of the spec-modelled
`validate_for_synthesis`, but `_generate_chapter_audio` never invokes any
validation gate: as long as synthesis keeps succeeding, every chunk of
`_split_text` — including chunks the gate would reject — is handed to the
synthesis call, and none is skipped. -/
theorem validate_gate_not_run {α : Type} (synth : List Char → Option α) (text : List Char)
    (h : ∀ c, (synth c).isSome = true) :
    validate_for_synthesis [] = none ∧
    validate_for_synthesis "ab".data = none ∧
    (∃ t, validate_for_synthesis "This is fine".data = some t ∧ t.getLast? = some '.') ∧
    (generate_chapter_audio synth text).attempted = split_text text 3000 := by
  refine ⟨by decide, by decide, by decide, ?_⟩
  exact genChapterGo_attempted synth h _ 0 []

theorem validate_gate_not_run_witness :
    (generate_chapter_audio (fun _ => some (0 : Nat)) "hi".data).attempted =
      split_text "hi".data 3000 :=
  (validate_gate_not_run (fun _ => some (0 : Nat)) "hi".data (fun _ => rfl)).2.2.2

/-- C6 (counterexample): the chapter text `"x"` (obtainable from a real
segmentation) produces the single chunk `"x."`, which the spec-modelled
gate rejects (`none`), yet the code hands exactly that chunk to the
synthesis call instead of skipping it. -/
theorem unvalidated_chunk_synthesized :
    validate_for_synthesis "x.".data = none ∧
    (generate_chapter_audio (fun _ => some (0 : Nat)) "x".data).attempted = ["x.".data] := by
  decide

/-!  ## C3: failure effects of `_generate_chapter_audio` -/

/-- Failure/success effects of the chunk loop: on a raised synthesis call
the already-written chunk files (and only they) remain and no chapter
file is produced; on success no chunk file remains and the chapter file
exists. -/
theorem genChapterGo_effects {α : Type} (synth : List Char → Option α) :
    ∀ (L : List (List Char)) (i : Nat) (written : List (Nat × α)),
      ((genChapterGo synth L i written).failed = true →
        (genChapterGo synth L i written).chapterFile = none ∧
        (genChapterGo synth L i written).leftoverChunkFiles =
          written.map Prod.fst ++
            List.range' i (L.takeWhile (fun c => (synth c).isSome)).length) ∧
      ((genChapterGo synth L i written).failed = false →
        (genChapterGo synth L i written).leftoverChunkFiles = [] ∧
        (genChapterGo synth L i written).chapterFile ≠ none) := by
  intro L
  induction L with
  | nil =>
    intro i written
    exact ⟨fun h => by simp [genChapterGo] at h, fun _ => by simp [genChapterGo]⟩
  | cons c rest ih =>
    intro i written
    simp only [genChapterGo]
    cases hs : synth c with
    | some a =>
      have h := ih (i + 1) (written ++ [(i, a)])
      constructor
      · intro hf
        simp only at hf ⊢
        obtain ⟨hcf, hlf⟩ := h.1 hf
        refine ⟨hcf, ?_⟩
        rw [hlf]
        simp only [List.takeWhile_cons, hs, Option.isSome_some, if_true, List.length_cons,
          List.range', List.map_append]
        simp
      · intro hf
        simp only at hf ⊢
        exact h.2 hf
    | none =>
      constructor
      · intro _
        simp only [List.takeWhile_cons, hs, Option.isSome_none]
        simp
      · intro hf
        simp at hf

/-- C3 (amended): when a synthesis call for some chunk fails, the chapter
run fails (the exception propagates to the caller's generic handler — no
`SynthesisEmpty`-specific error exists) and no chapter artifact is
produced, but the partial chunk files written before the failure are NOT
deleted: one file per successfully synthesized chunk remains on disk.  On
success no chunk files remain and the artifact exists. -/
theorem generate_chapter_audio_failure_effects {α : Type}
    (synth : List Char → Option α) (text : List Char) :
    ((generate_chapter_audio synth text).failed = true →
      (generate_chapter_audio synth text).chapterFile = none ∧
      (generate_chapter_audio synth text).leftoverChunkFiles =
        List.range (((split_text text 3000).takeWhile
          (fun c => (synth c).isSome)).length)) ∧
    ((generate_chapter_audio synth text).failed = false →
      (generate_chapter_audio synth text).leftoverChunkFiles = [] ∧
      (generate_chapter_audio synth text).chapterFile ≠ none) := by
  have h := genChapterGo_effects synth (split_text text 3000) 0 []
  simp only [generate_chapter_audio]
  constructor
  · intro hf
    obtain ⟨hcf, hlf⟩ := h.1 hf
    refine ⟨hcf, ?_⟩
    rw [hlf]
    simp [List.range_eq_range']
  · exact h.2

theorem generate_chapter_audio_failure_effects_witness :
    (generate_chapter_audio (fun _ => (none : Option Nat)) "hi".data).chapterFile = none ∧
    (generate_chapter_audio (fun _ => (none : Option Nat)) "hi".data).leftoverChunkFiles =
      List.range (((split_text "hi".data 3000).takeWhile
        (fun c => ((fun _ => (none : Option Nat)) c).isSome)).length) :=
  (generate_chapter_audio_failure_effects (fun _ => (none : Option Nat)) "hi".data).1 (by decide)

theorem splitDotSpace_cons_a (y : List Char) :
    splitDotSpace ('a' :: y) =
      match splitDotSpace y with
      | [] => [['a']]
      | h :: t => ('a' :: h) :: t := rfl

theorem splitDotSpace_replicate_a (n : Nat) {t h : List Char} {tl : List (List Char)}
    (ht : splitDotSpace t = h :: tl) :
    splitDotSpace (List.replicate n 'a' ++ t) = (List.replicate n 'a' ++ h) :: tl := by
  induction n with
  | zero => simpa using ht
  | succ n ih =>
    rw [List.replicate_succ, List.cons_append, splitDotSpace_cons_a, ih]
    simp [List.replicate_succ]

theorem lstrip_replicate_a_dot (n : Nat) :
    lstrip (List.replicate n 'a' ++ ['.']) = List.replicate n 'a' ++ ['.'] := by
  cases n with
  | zero => decide
  | succ n =>
    rw [List.replicate_succ, List.cons_append, lstrip]
    simp [List.dropWhile, show isSpaceChar 'a' = false by decide]

theorem pyStrip_replicate_dot_space (n : Nat) :
    pyStrip (List.replicate n 'a' ++ ['.', ' ']) = List.replicate n 'a' ++ ['.'] := by
  rw [pyStrip, rstrip_append_dot_space]
  exact lstrip_replicate_a_dot n

theorem replicate_dot_space_ne_nil :
    (List.replicate 2999 'a' ++ ['.', ' ']) ≠ [] := by
  intro h
  have hlen := congrArg List.length h
  rw [List.length_append, List.length_replicate, List.length_nil] at hlen
  exact absurd hlen (by decide)

theorem split_text_longChapterText :
    split_text longChapterText 3000 =
      [List.replicate 2999 'a' ++ ['.'], "b.".data] := by
  have hrep : replaceNlSpace longChapterText = longChapterText := by
    simp only [longChapterText, replaceNlSpace, List.map_append, List.map_replicate]
    rw [show ((if ('a' : Char) = '\n' then ' ' else 'a')) = 'a' by decide,
      show List.map (fun c => if c = '\n' then ' ' else c) ". b".data = ". b".data by decide]
  have hsplit : splitDotSpace longChapterText = [List.replicate 2999 'a', ['b']] := by
    have hbase : splitDotSpace ". b".data = [] :: [['b']] := by decide
    have h2 := splitDotSpace_replicate_a 2999 hbase
    rw [List.append_nil] at h2
    unfold longChapterText
    exact h2
  rw [split_text, hrep, hsplit]
  have hlen1 : ([] : List Char).length + (List.replicate 2999 'a').length < 3000 := by
    rw [List.length_nil, List.length_replicate]
    decide
  rw [splitTextGo, if_pos hlen1, List.nil_append]
  have hlen2 : ¬ ((List.replicate 2999 'a' ++ ['.', ' ']).length + (['b'] : List Char).length
      < 3000) := by
    rw [List.length_append, List.length_replicate]
    decide
  rw [splitTextGo, if_neg hlen2, if_pos replicate_dot_space_ne_nil]
  rw [show splitTextGo 3000 [] (['b'] ++ ['.', ' ']) = ["b.".data] by decide]
  rw [pyStrip_replicate_dot_space]
  rfl

/-- Running the chunk loop on exactly two chunks where the first
synthesizes and the second raises: the first chunk's file remains. -/
theorem genChapterGo_two {α : Type} (synth : List Char → Option α) (c1 c2 : List Char)
    (a : α) (h1 : synth c1 = some a) (h2 : synth c2 = none) :
    genChapterGo synth [c1, c2] 0 [] =
      { attempted := [c1, c2], leftoverChunkFiles := [0],
        chapterFile := none, failed := true } := by
  simp only [genChapterGo, h1, h2]
  rfl

/-- C3 (counterexample): with the 3002-character chapter text, chunk 0
synthesizes successfully (its file is written) and chunk 1 raises; the
method exits failed with no chapter artifact, but chunk 0's file is still
on disk — it is not deleted, refuting "any partial output file written so
far is deleted". -/
theorem generate_chapter_audio_partial_files_remain :
    (generate_chapter_audio lengthGatedSynth longChapterText).failed = true ∧
    (generate_chapter_audio lengthGatedSynth longChapterText).chapterFile = none ∧
    (generate_chapter_audio lengthGatedSynth longChapterText).leftoverChunkFiles = [0] := by
  have hsyn1 : lengthGatedSynth (List.replicate 2999 'a' ++ ['.']) = some 0 := by
    unfold lengthGatedSynth
    rw [if_pos]
    rw [List.length_append, List.length_replicate]
    decide
  have hsyn2 : lengthGatedSynth "b.".data = none := by decide
  have hrun := genChapterGo_two lengthGatedSynth (List.replicate 2999 'a' ++ ['.'])
    "b.".data 0 hsyn1 hsyn2
  rw [generate_chapter_audio, split_text_longChapterText, hrun]
  exact ⟨rfl, rfl, rfl⟩

/-!  ## C7: idempotence of `clean_text` -/

theorem noWsAfterNl_tail (c : Char) (rest : List Char)
    (h : noWsAfterNl (c :: rest) = true) : noWsAfterNl rest = true := by
  rw [noWsAfterNl.eq_def] at h
  split at h
  · next heq => exact absurd heq (by simp)
  · next heq => simp at h
  · next heq =>
    injection heq with h1 h2
    rw [h2]
    simp only [Bool.and_eq_true] at h
    exact h.2
  · next heq =>
    injection heq with h1 h2
    rw [h2]
    exact h

theorem matchTripleNl_none_of_noWs (cs : List Char) (h : noWsAfterNl cs = true) :
    matchTripleNl cs = none := by
  match cs with
  | [] => rfl
  | c :: rest =>
    by_cases hc : c = '\n'
    · subst hc
      match rest with
      | [] => exact absurd h (by decide)
      | d :: t =>
        have hd : isSpaceChar d = false := by
          rw [noWsAfterNl.eq_def] at h
          split at h
          · next heq => exact absurd heq (by simp)
          · next heq => simp at h
          · next heq =>
            injection heq with h1 h2
            injection h2 with h2a h2b
            rw [h2a]
            simp only [Bool.and_eq_true] at h
            simpa using h.1
          · next hx1 hx2 heq =>
            injection heq with h1 h2
            exact (hx2 d t h1.symm h2.symm).elim
        have hdn : d ≠ '\n' := by
          intro hdd
          rw [hdd] at hd
          exact absurd hd (by decide)
        have htw : List.takeWhile isSpaceChar (d :: t) = [] := by
          rw [List.takeWhile_cons, hd]
          rfl
        rw [matchTripleNl]
        rw [htw]
        rw [show ((List.length ([] : List Char)) + 1) = 1 from rfl,
          show List.range 1 = [0] by decide]
        rw [List.findSome?_cons]
        have hdrop : List.drop (([] : List Char).length - 0) (d :: t) = d :: t := rfl
        rw [hdrop]
        have hnomatch :
            (match d :: t with
              | '\n' :: r2 =>
                List.findSome?
                  (fun i' =>
                    let r3 := List.drop ((List.takeWhile isSpaceChar r2).length - i') r2
                    let k := (List.takeWhile (fun c => c = '\n') r3).length
                    if 1 ≤ k then some (List.drop k r3) else none)
                  (List.range ((List.takeWhile isSpaceChar r2).length + 1))
              | _ => none) = none := by
          split
          · next heq =>
            injection heq with h1 h2
            exact absurd h1 hdn
          · rfl
        rw [hnomatch]
        rw [List.findSome?_nil]
    · rw [matchTripleNl.eq_def]
      split
      · next heq =>
        injection heq with h1 h2
        exact absurd h1 hc
      · rfl

theorem subTripleGo_id :
    ∀ (cs : List Char) (fuel : Nat), noWsAfterNl cs = true → subTripleGo fuel cs = cs := by
  intro cs
  induction cs with
  | nil => intro fuel _; cases fuel <;> rfl
  | cons c rest ih =>
    intro fuel h
    cases fuel with
    | zero => rfl
    | succ f =>
      rw [subTripleGo, matchTripleNl_none_of_noWs _ h]
      exact congrArg (fun t => c :: t) (ih f (noWsAfterNl_tail _ _ h))

theorem subTripleNewline_id (s : List Char) (h : noWsAfterNl s = true) :
    subTripleNewline s = s :=
  subTripleGo_id s s.length h

theorem splitLines_ne_nil (cs : List Char) : splitLines cs ≠ [] := by
  rw [splitLines.eq_def]
  split
  · simp
  · simp
  · split <;> simp

/-- Python `'\n'.join` undoes `split('\n')`. -/
theorem joinLines_splitLines : ∀ cs : List Char, joinLines (splitLines cs) = cs := by
  intro cs
  induction cs with
  | nil => rfl
  | cons c rest ih =>
    by_cases hc : c = '\n'
    · subst hc
      rw [show splitLines ('\n' :: rest) = [] :: splitLines rest from rfl]
      obtain ⟨h, t, heq⟩ := List.exists_cons_of_ne_nil (splitLines_ne_nil rest)
      rw [heq]
      rw [heq] at ih
      rw [show joinLines ([] :: h :: t) = [] ++ '\n' :: joinLines (h :: t) from rfl]
      rw [List.nil_append, ih]
    · have hsl : splitLines (c :: rest) =
          match splitLines rest with
          | [] => [[c]]
          | h :: t => (c :: h) :: t := by
        rw [splitLines.eq_def]
        split
        · next heq => exact absurd heq (by simp)
        · next heq =>
          injection heq with h1 h2
          exact absurd h1 hc
        · next heq =>
          injection heq with h1 h2
          rw [h1, h2]
      obtain ⟨h, t, heq⟩ := List.exists_cons_of_ne_nil (splitLines_ne_nil rest)
      rw [hsl, heq]
      rw [heq] at ih
      match t with
      | [] =>
        rw [show joinLines [c :: h] = c :: h from rfl]
        rw [show joinLines [h] = h from rfl] at ih
        rw [ih]
      | t' :: ts =>
        rw [show joinLines ((c :: h) :: t' :: ts) = (c :: h) ++ '\n' :: joinLines (t' :: ts)
          from rfl]
        rw [show joinLines (h :: t' :: ts) = h ++ '\n' :: joinLines (t' :: ts) from rfl] at ih
        rw [List.cons_append, ih]

/-- A line that is stripped, non-empty and non-junk passes the filter of
`clean_text` unchanged. -/
theorem filterMap_keep :
    ∀ ls : List (List Char),
      (∀ l ∈ ls, pyStrip l = l ∧ l ≠ [] ∧ isJunkLine l = false) →
      ls.filterMap (fun l =>
        let s := pyStrip l
        if s = [] then none else if isJunkLine s then none else some s) = ls := by
  intro ls
  induction ls with
  | nil => intro _; rfl
  | cons l rest ih =>
    intro h
    obtain ⟨hs, hne, hj⟩ := h l (List.mem_cons_self _ _)
    have happ : (if pyStrip l = [] then none
        else if isJunkLine (pyStrip l) then none else some (pyStrip l)) = some l := by
      rw [hs, if_neg hne, hj]
      rw [if_neg (by simp)]
    rw [List.filterMap_cons]
    simp only [happ]
    rw [ih (fun l' h' => h l' (List.mem_cons_of_mem _ h'))]

/-- C7 (amended): `clean` is not idempotent in general, but it acts as the
identity on any non-empty text already in fully cleaned form: the text is
stripped, contains no space/tab run, every newline is immediately followed
by a non-whitespace character, and every line is non-empty, stripped, and
passes the boilerplate filter. -/
theorem clean_text_id_on_cleaned_form (y : List Char)
    (hne : y ≠ [])
    (hstrip : pyStrip y = y)
    (hnw : noWsAfterNl y = true)
    (hcb : collapseBlankRuns y = y)
    (hlines : ∀ l ∈ splitLines y, pyStrip l = l ∧ l ≠ [] ∧ isJunkLine l = false) :
    clean_text y = some y := by
  simp only [clean_text]
  rw [filterMap_keep _ hlines, joinLines_splitLines, subTripleNewline_id _ hnw, hcb, hstrip]
  rw [if_neg (by simpa [List.length_eq_zero] using hne)]

theorem clean_text_id_on_cleaned_form_witness :
    clean_text "Hello world.".data = some "Hello world.".data :=
  clean_text_id_on_cleaned_form "Hello world.".data (by decide) (by decide) (by decide)
    (by decide) (by decide)

/-- C7 (counterexample): cleaning `"a.   a."` collapses the space run,
but the shortened line `"a. a."` then fails the dot-ratio junk filter on a
second pass (2 dots > 0.3·5), so `clean(clean(x))` is empty while
`clean(x)` is not — `clean` is not idempotent. -/
theorem clean_text_not_idempotent :
    clean_text "a.   a.".data = some "a. a.".data ∧
    clean_text "a. a.".data = some [] ∧
    (clean_text "a.   a.".data).bind clean_text ≠ clean_text "a.   a.".data := by
  decide

end BookBot
